import Mathlib

/-!
Verification of the AcademiaMatch semantic matching engine.

The Python source is shallowly embedded: strings are Lean `String`s
(processed through their character lists), Python floats are idealized as
rationals (`ℚ`), the external Sentence-Transformer model is an abstract
`encode : String → List ℚ` parameter constrained by the unit-norm contract
that `normalize_embeddings=True` provides, and `np.argsort` is modelled by
its documented contract (a permutation of the indices along which the key
is sorted; the default kind gives no stability guarantee).  Python's
`set` iteration order is arbitrary (hash-randomized); wherever the code
iterates a set, the embedding either quantifies over an enumeration of the
set or fixes one realizable enumeration, as documented at each definition.
-/

namespace AcademiaMatch

/-- ASCII model of Python's regex `\s` / `str.split()` whitespace. -/
def isWs (c : Char) : Bool :=
  c = ' ' || c = '\t' || c = '\n' || c = '\r' || c = '\x0b' || c = '\x0c'

/-- Characters kept by the regex `[^a-z0-9\s]` replacement in
`preprocess_text` (matching.py line 35): lowercase letters, digits and
whitespace survive, everything else becomes a space. -/
def isKept (c : Char) : Bool :=
  ('a' ≤ c && c ≤ 'z') || ('0' ≤ c && c ≤ '9') || isWs c

/-- A character that can appear inside a token produced by the cleaning
pipeline: kept and not whitespace, i.e. `[a-z0-9]`. -/
def isTokenChar (c : Char) : Bool :=
  isKept c && !(isWs c)

/-- Model of `text.lower()` followed by `re.sub(r"[^a-z0-9\s]", " ", text)`
(matching.py lines 33-35): ASCII lowercasing, then every character outside
`[a-z0-9\s]` is replaced by a space. -/
def cleanChars (l : List Char) : List Char :=
  (l.map Char.toLower).map (fun c => if isKept c then c else ' ')

/-- Accumulator for `splitWs`; the accumulator holds the current token in
reverse order, mirroring Python's `str.split()` with no separator. -/
def splitWsAux : List Char → List Char → List (List Char)
  | [], acc => if acc.isEmpty then [] else [acc.reverse]
  | c :: cs, acc =>
      if isWs c then
        if acc.isEmpty then splitWsAux cs [] else acc.reverse :: splitWsAux cs []
      else splitWsAux cs (c :: acc)

/-- Model of Python's `text.split()`: split on runs of whitespace,
discarding empty pieces. -/
def splitWs (l : List Char) : List (List Char) :=
  splitWsAux l []

/-- Model of `" ".join(tokens)` at the character-list level. -/
def joinSp : List (List Char) → List Char
  | [] => []
  | [t] => t
  | t :: ts => t ++ ' ' :: joinSp ts

/-- `preprocess_text` from matching.py lines 25-38 (same code appears in
load_data.py lines 18-31): guard for empty input, lowercase, replace
special characters by spaces, collapse whitespace.  No stopword removal
("light" mode). -/
def preprocess_text (s : String) : String :=
  if s.data.isEmpty then "" else ⟨joinSp (splitWs (cleanChars s.data))⟩

/-- The English stopword set of compute_all_matches.py lines 14-31. -/
def STOPWORDS : List String :=
  ["i", "me", "my", "myself", "we", "our", "ours", "ourselves", "you", "you\x27re",
   "you\x27ve", "you\x27ll", "you\x27d", "your", "yours", "yourself", "yourselves",
   "he", "him", "his", "himself", "she", "she\x27s", "her", "hers", "herself",
   "it", "it\x27s", "its", "itself", "they", "them", "their", "theirs",
   "themselves", "what", "which", "who", "whom", "this", "that", "that\x27ll",
   "these", "those", "am", "is", "are", "was", "were", "be", "been", "being",
   "have", "has", "had", "having", "do", "does", "did", "doing", "a", "an",
   "the", "and", "but", "if", "or", "because", "as", "until", "while", "of",
   "at", "by", "for", "with", "about", "against", "between", "into", "through",
   "during", "before", "after", "above", "below", "to", "from", "up", "down",
   "in", "out", "on", "off", "over", "under", "again", "further", "then",
   "once", "here", "there", "when", "where", "why", "how", "all", "both",
   "each", "few", "more", "most", "other", "some", "such", "no", "nor", "not",
   "only", "own", "same", "so", "than", "too", "very", "s", "t", "can", "will",
   "just", "don", "don\x27t", "should", "should\x27ve", "now", "d", "ll", "m",
   "o", "re", "ve", "y", "ain", "aren", "aren\x27t", "couldn", "couldn\x27t",
   "didn", "didn\x27t", "doesn", "doesn\x27t", "hadn", "hadn\x27t", "hasn",
   "hasn\x27t", "haven", "haven\x27t", "isn", "isn\x27t", "ma", "mightn",
   "mightn\x27t", "mustn", "mustn\x27t", "needn", "needn\x27t", "shan",
   "shan\x27t", "shouldn", "shouldn\x27t", "wasn", "wasn\x27t", "weren",
   "weren\x27t", "won", "won\x27t", "wouldn", "wouldn\x27t"]

/-- The token filter of compute_all_matches.py line 40: keep a word iff it
is not a stopword and is longer than 2 characters. -/
def keepToken (t : List Char) : Bool :=
  !(STOPWORDS.contains ⟨t⟩) && decide (t.length > 2)

end AcademiaMatch

namespace ComputeAllMatches

open AcademiaMatch

/-- `preprocess_text` from compute_all_matches.py lines 33-41: like the
light normalizer but additionally dropping stopwords and tokens of length
at most 2 ("keyword" mode). -/
def preprocess_text (s : String) : String :=
  if s.data.isEmpty then ""
  else ⟨joinSp ((splitWs (cleanChars s.data)).filter keepToken)⟩

end ComputeAllMatches

namespace AcademiaMatch

lemma splitWsAux_no_ws (l : List Char) :
    ∀ acc, (∀ c ∈ acc, isWs c = false) →
      ∀ t ∈ splitWsAux l acc, t ≠ [] ∧ ∀ c ∈ t, isWs c = false := by
  induction l with
  | nil =>
      intro acc hacc t ht
      cases acc with
      | nil => simp [splitWsAux] at ht
      | cons a as =>
          simp only [splitWsAux, List.isEmpty_cons, List.mem_singleton,
            if_neg Bool.false_ne_true] at ht
          subst ht
          refine ⟨by simp, ?_⟩
          intro c hc
          exact hacc c (List.mem_reverse.mp hc)
  | cons c cs ih =>
      intro acc hacc t ht
      simp only [splitWsAux] at ht
      by_cases hws : isWs c
      · rw [if_pos hws] at ht
        cases acc with
        | nil =>
            simp only [List.isEmpty_nil, if_pos rfl] at ht
            exact ih [] (by simp) t ht
        | cons a as =>
            rw [if_neg (by simp)] at ht
            rcases List.mem_cons.mp ht with h | h
            · subst h
              refine ⟨by simp, ?_⟩
              intro d hd
              exact hacc d (List.mem_reverse.mp hd)
            · exact ih [] (by simp) t h
      · rw [if_neg hws] at ht
        refine ih (c :: acc) ?_ t ht
        intro d hd
        rcases List.mem_cons.mp hd with rfl | hd
        · simpa using hws
        · exact hacc d hd

lemma splitWs_no_ws (l : List Char) :
    ∀ t ∈ splitWs l, t ≠ [] ∧ ∀ c ∈ t, isWs c = false :=
  splitWsAux_no_ws l [] (by simp)

lemma splitWsAux_subset (l : List Char) :
    ∀ acc t, t ∈ splitWsAux l acc → ∀ c ∈ t, c ∈ acc ∨ c ∈ l := by
  induction l with
  | nil =>
      intro acc t ht c hc
      cases acc with
      | nil => simp [splitWsAux] at ht
      | cons a as =>
          simp only [splitWsAux, List.isEmpty_cons, List.mem_singleton,
            if_neg Bool.false_ne_true] at ht
          subst ht
          exact Or.inl (List.mem_reverse.mp hc)
  | cons d ds ih =>
      intro acc t ht c hc
      simp only [splitWsAux] at ht
      by_cases hws : isWs d
      · rw [if_pos hws] at ht
        cases acc with
        | nil =>
            simp only [List.isEmpty_nil, if_pos rfl] at ht
            rcases ih [] t ht c hc with h' | h'
            · simp at h'
            · exact Or.inr (by simp [h'])
        | cons a as =>
            rw [if_neg (by simp)] at ht
            rcases List.mem_cons.mp ht with h | h
            · subst h
              exact Or.inl (List.mem_reverse.mp hc)
            · rcases ih [] t h c hc with h' | h'
              · simp at h'
              · exact Or.inr (by simp [h'])
      · rw [if_neg hws] at ht
        rcases ih (d :: acc) t ht c hc with h' | h'
        · rcases List.mem_cons.mp h' with rfl | h''
          · exact Or.inr (by simp)
          · exact Or.inl h''
        · exact Or.inr (by simp [h'])

lemma splitWs_subset (l : List Char) :
    ∀ t ∈ splitWs l, ∀ c ∈ t, c ∈ l := by
  intro t ht c hc
  rcases splitWsAux_subset l [] t ht c hc with h | h
  · simp at h
  · exact h

end AcademiaMatch

namespace AcademiaMatch

lemma cleanChars_isKept (l : List Char) : ∀ c ∈ cleanChars l, isKept c = true := by
  intro c hc
  simp only [cleanChars, List.map_map, List.mem_map, Function.comp_apply] at hc
  obtain ⟨d, -, rfl⟩ := hc
  by_cases h : isKept d.toLower
  · rw [if_pos h]
    exact h
  · rw [if_neg h]
    decide

lemma tokenChar_toLower (c : Char) (h : isTokenChar c = true) : c.toLower = c := by
  rw [isTokenChar, Bool.and_eq_true, Bool.not_eq_true'] at h
  obtain ⟨hkept, hws⟩ := h
  rw [isKept] at hkept
  simp only [hws, Bool.or_false, Bool.or_eq_true, Bool.and_eq_true,
    decide_eq_true_eq] at hkept
  have hrange : (97 ≤ c.toNat ∧ c.toNat ≤ 122) ∨ (48 ≤ c.toNat ∧ c.toNat ≤ 57) := by
    rcases hkept with ⟨h1, h2⟩ | ⟨h1, h2⟩
    · rw [Char.le_def] at h1 h2
      exact Or.inl ⟨h1, h2⟩
    · rw [Char.le_def] at h1 h2
      exact Or.inr ⟨h1, h2⟩
  simp only [Char.toLower]
  rw [if_neg]
  omega

lemma tokenChar_of_clean (l : List Char) :
    ∀ t ∈ splitWs (cleanChars l), t ≠ [] ∧ ∀ c ∈ t, isTokenChar c = true := by
  intro t ht
  obtain ⟨hne, hnw⟩ := splitWs_no_ws (cleanChars l) t ht
  refine ⟨hne, ?_⟩
  intro c hc
  have hk := cleanChars_isKept l c (splitWs_subset (cleanChars l) t ht c hc)
  simp [isTokenChar, hk, hnw c hc]

lemma joinSp_chars (ts : List (List Char)) :
    ∀ c ∈ joinSp ts, (∃ t ∈ ts, c ∈ t) ∨ c = ' ' := by
  induction ts with
  | nil => simp [joinSp]
  | cons t ts ih =>
      cases ts with
      | nil =>
          intro c hc
          exact Or.inl ⟨t, by simp, by simpa [joinSp] using hc⟩
      | cons t' ts' =>
          intro c hc
          simp only [joinSp, List.mem_append, List.mem_cons] at hc
          rcases hc with hc | hc | hc
          · exact Or.inl ⟨t, by simp, hc⟩
          · exact Or.inr hc
          · rcases ih c hc with ⟨u, hu, hcu⟩ | hsp
            · exact Or.inl ⟨u, by simp [hu], hcu⟩
            · exact Or.inr hsp

lemma cleanChars_joinSp (ts : List (List Char))
    (h : ∀ t ∈ ts, ∀ c ∈ t, isTokenChar c = true) :
    cleanChars (joinSp ts) = joinSp ts := by
  have hfix : ∀ c ∈ joinSp ts, c.toLower = c ∧ isKept c = true := by
    intro c hc
    rcases joinSp_chars ts c hc with ⟨t, ht, hct⟩ | rfl
    · have htc := h t ht c hct
      refine ⟨tokenChar_toLower c htc, ?_⟩
      simp only [isTokenChar, Bool.and_eq_true] at htc
      exact htc.1
    · exact ⟨by decide, by decide⟩
  simp only [cleanChars, List.map_map]
  have hcong : ∀ c ∈ joinSp ts,
      ((fun c => if isKept c then c else ' ') ∘ Char.toLower) c = id c := by
    intro c hc
    simp [Function.comp_apply, (hfix c hc).1, (hfix c hc).2]
  rw [List.map_congr_left hcong, List.map_id]

lemma splitWsAux_cons (c : Char) (cs acc : List Char) :
    splitWsAux (c :: cs) acc =
      if isWs c then
        (if acc.isEmpty then splitWsAux cs [] else acc.reverse :: splitWsAux cs [])
      else splitWsAux cs (c :: acc) := rfl

lemma splitWsAux_token (t : List Char) (hnw : ∀ c ∈ t, isWs c = false) :
    ∀ l acc, splitWsAux (t ++ l) acc = splitWsAux l (t.reverse ++ acc) := by
  induction t with
  | nil => simp
  | cons c cs ih =>
      intro l acc
      have hc : isWs c = false := hnw c (by simp)
      rw [List.cons_append, splitWsAux_cons, if_neg (by simp [hc]),
        ih (fun d hd => hnw d (by simp [hd])) l (c :: acc)]
      simp

lemma splitWs_joinSp (ts : List (List Char))
    (h : ∀ t ∈ ts, t ≠ [] ∧ ∀ c ∈ t, isWs c = false) :
    splitWs (joinSp ts) = ts := by
  induction ts with
  | nil => rfl
  | cons t ts ih =>
      obtain ⟨hne, hnw⟩ := h t (by simp)
      cases ts with
      | nil =>
          show splitWsAux (joinSp [t]) [] = [t]
          have : joinSp [t] = t ++ [] := by simp [joinSp]
          rw [this, splitWsAux_token t hnw [] []]
          cases ht : t.reverse with
          | nil => exact absurd (by simpa using ht) hne
          | cons a as =>
              simp only [splitWsAux, List.append_nil, ht, List.isEmpty_cons,
                if_neg Bool.false_ne_true]
              simp [← ht]
      | cons t' ts' =>
          show splitWsAux (joinSp (t :: t' :: ts')) [] = t :: t' :: ts'
          have hj : joinSp (t :: t' :: ts') = t ++ ' ' :: joinSp (t' :: ts') := rfl
          rw [hj, splitWsAux_token t hnw _ []]
          cases ht : t.reverse with
          | nil => exact absurd (by simpa using ht) hne
          | cons a as =>
              have hws : isWs ' ' = true := by decide
              simp only [splitWsAux, hws, if_pos, List.append_nil, ht,
                List.isEmpty_cons, if_neg Bool.false_ne_true]
              rw [← ht, List.reverse_reverse]
              exact congrArg (t :: ·) (ih fun u hu => h u (by simp [hu]))

lemma preprocess_text_mk (ts : List (List Char))
    (h : ∀ t ∈ ts, t ≠ [] ∧ ∀ c ∈ t, isTokenChar c = true) :
    preprocess_text ⟨joinSp ts⟩ = ⟨joinSp ts⟩ := by
  by_cases hemp : (joinSp ts).isEmpty
  · simp only [preprocess_text, hemp, if_pos]
    cases hj : joinSp ts with
    | nil => rfl
    | cons a as => rw [hj] at hemp; simp at hemp
  · simp only [preprocess_text, hemp, Bool.false_eq_true, if_neg, not_false_iff]
    rw [cleanChars_joinSp ts (fun t ht => (h t ht).2),
      splitWs_joinSp ts (fun t ht => ⟨(h t ht).1, fun c hc => by
        have := (h t ht).2 c hc
        simp only [isTokenChar, Bool.and_eq_true, Bool.not_eq_true'] at this
        exact this.2⟩)]


lemma preprocess_text_kw_mk (ts : List (List Char))
    (h : ∀ t ∈ ts, t ≠ [] ∧ ∀ c ∈ t, isTokenChar c = true)
    (hk : ∀ t ∈ ts, keepToken t = true) :
    ComputeAllMatches.preprocess_text ⟨joinSp ts⟩ = ⟨joinSp ts⟩ := by
  by_cases hemp : (joinSp ts).isEmpty
  · simp only [ComputeAllMatches.preprocess_text, hemp, if_pos]
    cases hj : joinSp ts with
    | nil => rfl
    | cons a as => rw [hj] at hemp; simp at hemp
  · simp only [ComputeAllMatches.preprocess_text, hemp, Bool.false_eq_true, if_neg,
      not_false_iff]
    rw [cleanChars_joinSp ts (fun t ht => (h t ht).2),
      splitWs_joinSp ts (fun t ht => ⟨(h t ht).1, fun c hc => by
        have := (h t ht).2 c hc
        simp only [isTokenChar, Bool.and_eq_true, Bool.not_eq_true'] at this
        exact this.2⟩),
      List.filter_eq_self.mpr hk]

/-- C7: text normalization is a fixed point under repetition, in both the
light mode (`preprocess_text` of matching.py / load_data.py) and the
keyword mode (`preprocess_text` of compute_all_matches.py, which also
removes stopwords and tokens of length at most 2):
`normalize(normalize(s)) = normalize(s)` for every input string `s`. -/
theorem preprocess_text_idempotent (s : String) :
    preprocess_text (preprocess_text s) = preprocess_text s ∧
      ComputeAllMatches.preprocess_text (ComputeAllMatches.preprocess_text s) =
        ComputeAllMatches.preprocess_text s := by
  constructor
  · by_cases h : s.data.isEmpty
    · simp [preprocess_text, h]
    · have hpp : preprocess_text s = ⟨joinSp (splitWs (cleanChars s.data))⟩ := by
        simp [preprocess_text, h]
      rw [hpp]
      exact preprocess_text_mk _ (tokenChar_of_clean s.data)
  · by_cases h : s.data.isEmpty
    · simp [ComputeAllMatches.preprocess_text, h]
    · have hpp : ComputeAllMatches.preprocess_text s =
          ⟨joinSp ((splitWs (cleanChars s.data)).filter keepToken)⟩ := by
        simp [ComputeAllMatches.preprocess_text, h]
      rw [hpp]
      refine preprocess_text_kw_mk _ ?_ ?_
      · intro t ht
        exact tokenChar_of_clean s.data t (List.mem_of_mem_filter ht)
      · intro t ht
        exact List.of_mem_filter ht


/-- The `Researcher` model of app.py lines 22-42: a single table holding
both populations, discriminated by `researcher_type` (`"internal"` or
`"external"`); the free-text columns are nullable (`Option`). -/
structure Researcher where
  id : Nat := 0
  name : String
  email : String
  organization : String := ""
  researcher_type : String
  faculty_department : Option String := none
  primary_areas : Option String := none
  experience_summary : Option String := none
  sectors_interested : Option String := none
  organization_focus : Option String := none
  challenge_description : Option String := none
  expertise_sought : Option String := none
  lab_tours_interested : Option String := none
deriving DecidableEq, Repr

/-- Model of Python's `". ".join(parts)`. -/
def joinDotSpace : List String → String
  | [] => ""
  | [s] => s
  | s :: ss => s ++ ". " ++ joinDotSpace ss

/-- `build_text_for_matching` from matching.py lines 40-64: select the
three population-specific text attributes (`x or ''` turns a missing
attribute into the empty string), join them with `". "` and normalize. -/
def build_text_for_matching (researcher : Researcher) : String :=
  let parts :=
    if researcher.researcher_type = "internal" then
      [researcher.primary_areas.getD "", researcher.experience_summary.getD "",
        researcher.sectors_interested.getD ""]
    else
      [researcher.expertise_sought.getD "", researcher.organization_focus.getD "",
        researcher.challenge_description.getD ""]
  preprocess_text (joinDotSpace parts)

/-- C8: the profile text builder concatenates the population-specific
attributes in the fixed documented order (internal: primary areas,
experience summary, sectors interested; external: expertise sought,
organization focus, challenge description), joined by `". "`, treating
missing attributes as empty strings; when every contributing attribute is
empty or missing it returns the empty string (it is a total function, so
it cannot fail). -/
theorem build_text_fixed_order (r : Researcher) :
    (r.researcher_type = "internal" →
      build_text_for_matching r =
        preprocess_text (r.primary_areas.getD "" ++ ". " ++
          r.experience_summary.getD "" ++ ". " ++ r.sectors_interested.getD "")) ∧
    (r.researcher_type ≠ "internal" →
      build_text_for_matching r =
        preprocess_text (r.expertise_sought.getD "" ++ ". " ++
          r.organization_focus.getD "" ++ ". " ++ r.challenge_description.getD "")) ∧
    (r.researcher_type = "internal" → r.primary_areas.getD "" = "" →
      r.experience_summary.getD "" = "" → r.sectors_interested.getD "" = "" →
      build_text_for_matching r = "") ∧
    (r.researcher_type ≠ "internal" → r.expertise_sought.getD "" = "" →
      r.organization_focus.getD "" = "" → r.challenge_description.getD "" = "" →
      build_text_for_matching r = "") := by
  refine ⟨fun h => ?_, fun h => ?_, fun h h1 h2 h3 => ?_, fun h h1 h2 h3 => ?_⟩
  · simp [build_text_for_matching, joinDotSpace, h, String.append_assoc]
  · simp [build_text_for_matching, joinDotSpace, h, String.append_assoc]
  · simp only [build_text_for_matching, joinDotSpace, h, if_pos, h1, h2, h3]
    decide
  · simp only [build_text_for_matching, joinDotSpace, if_neg h, h1, h2, h3]
    decide

/-- Witness for `build_text_fixed_order`: a concrete internal researcher
with all text attributes missing is mapped to the empty composite text,
and a concrete external researcher with populated attributes is mapped to
the documented concatenation. -/
theorem build_text_fixed_order_witness :
    build_text_for_matching
        { name := "n", email := "i@x", researcher_type := "internal" } = "" ∧
      build_text_for_matching
          { name := "m", email := "e@y", researcher_type := "external",
            expertise_sought := some "AI", organization_focus := some "health",
            challenge_description := some "robots" } =
        preprocess_text ("AI" ++ ". " ++ "health" ++ ". " ++ "robots") :=
  ⟨(build_text_fixed_order _).2.2.1 rfl rfl rfl rfl,
    (build_text_fixed_order _).2.1 (by decide)⟩


/-- Python `str.strip()`: remove leading and trailing whitespace. -/
def pyStrip (l : List Char) : List Char :=
  ((l.dropWhile isWs).reverse.dropWhile isWs).reverse

/-- Python `str.strip(chars)`: remove leading and trailing characters
drawn from the set `cs`. -/
def pyStripChars (cs : List Char) (l : List Char) : List Char :=
  ((l.dropWhile (fun c => decide (c ∈ cs))).reverse.dropWhile
    (fun c => decide (c ∈ cs))).reverse

/-- Code-point comparison backing Python's `<=` on strings (and hence
`sorted` on lists of strings). -/
def lexLe : List Char → List Char → Bool
  | [], _ => true
  | _ :: _, [] => false
  | a :: as, b :: bs =>
      if a.toNat < b.toNat then true
      else if b.toNat < a.toNat then false
      else lexLe as bs

/-- Insertion into a `lexLe`-sorted list, placing the new element before
any equal element it meets; together with `pySorted` this reproduces the
output of Python's stable `sorted()` on strings. -/
def insertStr (x : String) : List String → List String
  | [] => [x]
  | y :: ys => if lexLe x.data y.data then x :: y :: ys else y :: insertStr x ys

/-- Model of Python's `sorted()` on a list of strings (any stable
comparison sort produces this output). -/
def pySorted : List String → List String
  | [] => []
  | x :: xs => insertStr x (pySorted xs)

/-- Python list slicing `l[:k]` where `k` may be negative (a negative `k`
counts from the end of the list). -/
def pyTake {α : Type} (l : List α) (k : ℤ) : List α :=
  if 0 ≤ k then l.take k.toNat else l.take (l.length - (-k).toNat)

lemma lexLe_total (a b : List Char) : lexLe a b = true ∨ lexLe b a = true := by
  induction a generalizing b with
  | nil => exact Or.inl rfl
  | cons x xs ih =>
      cases b with
      | nil => exact Or.inr rfl
      | cons y ys =>
          simp only [lexLe]
          rcases Nat.lt_trichotomy x.toNat y.toNat with h | h | h
          · left
            rw [if_pos h]
          · rw [if_neg (by omega), if_neg (by omega), if_neg (by omega),
              if_neg (by omega)]
            exact ih ys
          · right
            rw [if_pos h]

lemma lexLe_trans {a b c : List Char} (h1 : lexLe a b = true)
    (h2 : lexLe b c = true) : lexLe a c = true := by
  induction a generalizing b c with
  | nil => rfl
  | cons x xs ih =>
      cases b with
      | nil => simp [lexLe] at h1
      | cons y ys =>
          cases c with
          | nil => simp [lexLe] at h2
          | cons z zs =>
              simp only [lexLe] at h1 h2 ⊢
              by_cases hxy : x.toNat < y.toNat
              · by_cases hyz : y.toNat < z.toNat
                · rw [if_pos (by omega)]
                · rw [if_neg hyz] at h2
                  by_cases hzy : z.toNat < y.toNat
                  · rw [if_pos hzy] at h2
                    exact absurd h2 (by simp)
                  · rw [if_pos (by omega)]
              · rw [if_neg hxy] at h1
                by_cases hyx : y.toNat < x.toNat
                · rw [if_pos hyx] at h1
                  exact absurd h1 (by simp)
                · rw [if_neg hyx] at h1
                  by_cases hyz : y.toNat < z.toNat
                  · rw [if_pos (by omega)]
                  · rw [if_neg hyz] at h2
                    by_cases hzy : z.toNat < y.toNat
                    · rw [if_pos hzy] at h2
                      exact absurd h2 (by simp)
                    · rw [if_neg hzy] at h2
                      rw [if_neg (by omega), if_neg (by omega)]
                      exact ih h1 h2

lemma insertStr_perm (x : String) (l : List String) :
    (insertStr x l).Perm (x :: l) := by
  induction l with
  | nil => exact List.Perm.refl _
  | cons y ys ih =>
      simp only [insertStr]
      by_cases h : lexLe x.data y.data
      · rw [if_pos h]
      · rw [if_neg h]
        exact ((ih.cons y).trans (List.Perm.swap x y ys))

lemma pySorted_perm (l : List String) : (pySorted l).Perm l := by
  induction l with
  | nil => exact List.Perm.refl _
  | cons x xs ih =>
      exact (insertStr_perm x (pySorted xs)).trans (ih.cons x)

lemma pySorted_mem {x : String} {l : List String} :
    x ∈ pySorted l ↔ x ∈ l :=
  (pySorted_perm l).mem_iff

lemma insertStr_sorted (x : String) (l : List String)
    (h : l.Pairwise (fun a b => lexLe a.data b.data = true)) :
    (insertStr x l).Pairwise (fun a b => lexLe a.data b.data = true) := by
  induction l with
  | nil => simp [insertStr]
  | cons y ys ih =>
      rw [List.pairwise_cons] at h
      obtain ⟨hy, hys⟩ := h
      simp only [insertStr]
      by_cases hxy : lexLe x.data y.data
      · rw [if_pos hxy]
        refine List.Pairwise.cons ?_ (List.Pairwise.cons hy hys)
        intro z hz
        rcases List.mem_cons.mp hz with rfl | hz
        · exact hxy
        · exact lexLe_trans hxy (hy z hz)
      · rw [if_neg hxy]
        refine List.Pairwise.cons ?_ (ih hys)
        intro z hz
        rcases List.mem_cons.mp ((insertStr_perm x ys).mem_iff.mp hz) with rfl | h
        · rcases lexLe_total y.data z.data with h' | h'
          · exact h'
          · exact absurd h' (by simpa using hxy)
        · exact hy z h

lemma pySorted_sorted (l : List String) :
    (pySorted l).Pairwise (fun a b => lexLe a.data b.data = true) := by
  induction l with
  | nil => simp [pySorted]
  | cons x xs ih => exact insertStr_sorted x (pySorted xs) ih

lemma length_filter_add_length_filter_neg {α : Type} (l : List α) (p : α → Bool) :
    (l.filter p).length + (l.filter (fun a => !(p a))).length = l.length := by
  induction l with
  | nil => rfl
  | cons a as ih =>
      by_cases h : p a
      · simp [List.filter_cons, h, ih]
        omega
      · simp only [List.filter_cons, h, Bool.false_eq_true, if_neg, not_false_iff,
          Bool.not_false, if_pos, List.length_cons]
        omega


/-- One realizable enumeration step for a Python `set.add`: append the
element unless already present (first-occurrence order).  Python's set
iteration order is arbitrary, so theorems that depend on an enumeration
quantify over it rather than relying on this particular one. -/
def sAdd (l : List String) (x : String) : List String :=
  if x ∈ l then l else l ++ [x]

/-- `extract_keywords` from matching.py lines 66-81: split the text on
commas, strip and lowercase each piece, and keep the pieces longer than 2
characters, collected into a set (enumerated here in first-occurrence
order). -/
def extract_keywords (text : String) : List String :=
  if text.data = [] then []
  else
    ((text.splitOn ",").map
        (fun keyword => String.mk ((pyStrip keyword.data).map Char.toLower))).foldl
      (fun s cleaned =>
        if cleaned.data ≠ [] ∧ cleaned.length > 2 then sAdd s cleaned else s) []

/-- The punctuation set of `word.strip('.,;:!?()[]\x7b\x7d"\x27')` in
matching.py line 138. -/
def puncChars : List Char :=
  ['.', ',', ';', ':', '!', '?', '(', ')', '[', ']', '\x7b', '\x7d', '"', '\x27']

/-- The small additional stoplist of matching.py line 139. -/
def fallbackStop : List String :=
  ["their", "there", "these", "those", "would", "could", "should"]

/-- The fallback scan of `find_relevant_keywords` (matching.py lines
124-143): when both keyword sets are empty, lowercase and whitespace-split
the concatenated raw attribute texts of both researchers, strip
punctuation from each word, keep words longer than 4 characters that are
not in the small stoplist, and deduplicate (first-occurrence enumeration
of `list(set(...))`). -/
def fallback_keywords (internal_researcher external_researcher : Researcher) :
    List String :=
  let internal_text := internal_researcher.primary_areas.getD "" ++ " " ++
    internal_researcher.experience_summary.getD "" ++ " " ++
    internal_researcher.sectors_interested.getD ""
  let external_text := external_researcher.expertise_sought.getD "" ++ " " ++
    external_researcher.organization_focus.getD "" ++ " " ++
    external_researcher.challenge_description.getD ""
  let collect := fun (acc : List String) (text : String) =>
    ((splitWs (text.data.map Char.toLower)).map (pyStripChars puncChars)).foldl
      (fun acc cleaned =>
        if cleaned.length > 4 ∧ String.mk cleaned ∉ fallbackStop
        then acc ++ [String.mk cleaned] else acc) acc
  (collect (collect [] internal_text) external_text).foldl sAdd []

/-- The selection logic of `find_relevant_keywords` (matching.py lines
104-145), stated on enumerations of the two keyword sets: `A` enumerates
the internal side's phrase set, `B` the external side's, and `fb` is the
fallback list (used only when the union is empty).  Derived sets
(intersection, differences, union) are enumerated compatibly with the
input enumerations; claims about set-iteration-order-dependent behavior
quantify over `A` and `B`. -/
def keywordSelect (A B fb : List String) (top_n : Nat) : List String :=
  let exact_matches := A.inter B
  if exact_matches ≠ [] then
    let remaining_internal := A.filter (fun x => decide (x ∉ exact_matches))
    let remaining_external := B.filter (fun x => decide (x ∉ exact_matches))
    let all_remaining := remaining_internal ++ remaining_external
    let result := exact_matches ++
      pyTake all_remaining ((top_n : ℤ) - exact_matches.length)
    pySorted (result.take top_n)
  else
    let all_keywords := A ++ B.filter (fun x => decide (x ∉ A))
    let all_keywords := if all_keywords = [] then fb else all_keywords
    pySorted (all_keywords.take top_n)

/-- `find_relevant_keywords` from matching.py lines 83-145: extract the
comma-separated keyword set of the internal researcher's primary areas and
of the external researcher's expertise sought plus organization focus,
then run the selection logic (`keywordSelect`) with the raw-text fallback. -/
def find_relevant_keywords (internal_researcher external_researcher : Researcher)
    (top_n : Nat := 7) : List String :=
  let internal_keywords :=
    extract_keywords (internal_researcher.primary_areas.getD "")
  let external_keywords :=
    (extract_keywords (external_researcher.organization_focus.getD "")).foldl sAdd
      (extract_keywords (external_researcher.expertise_sought.getD ""))
  keywordSelect internal_keywords external_keywords
    (fallback_keywords internal_researcher external_researcher) top_n


lemma mem_inter_str (A B : List String) (y : String) :
    y ∈ A.inter B ↔ y ∈ A ∧ y ∈ B := by
  rw [show A.inter B = A.filter (fun x => decide (x ∈ B)) by
    simp [List.inter, List.elem_eq_mem]]
  simp [List.mem_filter]

lemma keywordSelect_no_trunc_mem (A B fb : List String) (n : Nat)
    (hx : A.inter B ≠ [])
    (hlen : (A ++ B.filter (fun x => decide (x ∉ A))).length ≤ n) :
    ∀ x, x ∈ keywordSelect A B fb n ↔ (x ∈ A ∨ x ∈ B) := by
  intro x
  have hfA : A.filter (fun y => decide (y ∉ A.inter B)) =
      A.filter (fun y => decide (y ∉ B)) :=
    List.filter_congr (fun a ha => decide_eq_decide.mpr
      ⟨fun h hb => h ((mem_inter_str A B a).mpr ⟨ha, hb⟩),
        fun h hi => h ((mem_inter_str A B a).mp hi).2⟩)
  have hfB : B.filter (fun y => decide (y ∉ A.inter B)) =
      B.filter (fun y => decide (y ∉ A)) :=
    List.filter_congr (fun b hb => decide_eq_decide.mpr
      ⟨fun h ha => h ((mem_inter_str A B b).mpr ⟨ha, hb⟩),
        fun h hi => h ((mem_inter_str A B b).mp hi).1⟩)
  have hinter : A.inter B = A.filter (fun y => decide (y ∈ B)) := by
    simp [List.inter, List.elem_eq_mem]
  have hpart : (A.inter B).length +
      (A.filter (fun y => decide (y ∉ B))).length = A.length := by
    have hp := length_filter_add_length_filter_neg A (fun y => decide (y ∈ B))
    rw [hinter]
    have : (fun y => !(decide (y ∈ B))) = (fun y : String => decide (y ∉ B)) := by
      funext y
      simp [decide_not]
    rw [← this]
    exact hp
  have hE : (A.inter B).length ≤ n ∧
      (A.filter (fun y => decide (y ∉ B))).length +
        (B.filter (fun y => decide (y ∉ A))).length ≤ n - (A.inter B).length := by
    simp only [List.length_append] at hlen
    omega
  have hrem : (A.filter (fun y => decide (y ∉ B)) ++
      B.filter (fun y => decide (y ∉ A))).length ≤
        ((n : ℤ) - (A.inter B).length).toNat := by
    simp only [List.length_append]
    omega
  simp only [keywordSelect, if_pos hx, hfA, hfB]
  rw [pyTake, if_pos (by omega : (0:ℤ) ≤ (n : ℤ) - (A.inter B).length),
    List.take_of_length_le hrem,
    List.take_of_length_le (by simp only [List.length_append] at hlen ⊢; omega)]
  simp only [pySorted_mem, List.mem_append, List.mem_filter,
    mem_inter_str, decide_eq_true_eq]
  constructor
  · rintro (⟨ha, -⟩ | ⟨ha, -⟩ | ⟨hb, -⟩)
    · exact Or.inl ha
    · exact Or.inl ha
    · exact Or.inr hb
  · rintro (ha | hb)
    · by_cases hb : x ∈ B
      · exact Or.inl ⟨ha, hb⟩
      · exact Or.inr (Or.inl ⟨ha, hb⟩)
    · by_cases ha : x ∈ A
      · exact Or.inl ⟨ha, hb⟩
      · exact Or.inr (Or.inr ⟨hb, ha⟩)

/-- C5 as stated: whenever the two phrase sets intersect, swapping the two
sides of the keyword-overlap extractor is claimed to return the same set
of phrases (for every enumeration of the phrase sets and every cap). -/
def KeywordOverlapSwapClaim : Prop :=
  ∀ (A B fb fb2 : List String) (n : Nat), A.Nodup → B.Nodup →
    A.inter B ≠ [] →
    ∀ x, x ∈ keywordSelect A B fb n ↔ x ∈ keywordSelect B A fb2 n

/-- C5 counterexample: with phrase sets `{zz, aa, bb}` and `{zz, cc}` and
cap 2, the forward call keeps `aa` (the fill-in slots after the
intersection are taken from the first side first) while the swapped call
keeps `cc` instead, so the two results are different sets. -/
theorem keyword_overlap_swap_counterexample : ¬ KeywordOverlapSwapClaim := by
  intro h
  have h1 := (h ["zz", "aa", "bb"] ["zz", "cc"] [] [] 2 (by decide) (by decide)
      (by decide) "aa").mp (by decide)
  exact absurd h1 (by decide)

/-- C5 amended: when the intersection path is taken in both directions and
the cap is not exceeded (every phrase of the union fits in `top_n`, so no
truncation occurs), `keywordSelect A B _ n` and `keywordSelect B A _ n`
contain exactly the same phrases; under truncation the filled-in phrases
may differ, as the counterexample shows. -/
theorem keyword_overlap_swap_same_set (A B fb fb2 : List String) (n : Nat)
    (hA : A.Nodup) (hB : B.Nodup) (hx : A.inter B ≠ [])
    (hlen : (A ++ B.filter (fun x => decide (x ∉ A))).length ≤ n) :
    ∀ x, x ∈ keywordSelect A B fb n ↔ x ∈ keywordSelect B A fb2 n := by
  have hx2 : B.inter A ≠ [] := by
    intro hnil
    obtain ⟨y, hy⟩ := List.exists_mem_of_ne_nil _ hx
    obtain ⟨hyA, hyB⟩ := (mem_inter_str A B y).mp hy
    have : y ∈ B.inter A := (mem_inter_str B A y).mpr ⟨hyB, hyA⟩
    rw [hnil] at this
    simp at this
  have hcross : (A.filter (fun y => decide (y ∈ B))).length =
      (B.filter (fun y => decide (y ∈ A))).length := by
    have hperm : (A.filter (fun y => decide (y ∈ B))).Perm
        (B.filter (fun y => decide (y ∈ A))) := by
      rw [List.perm_ext_iff_of_nodup (hA.filter _) (hB.filter _)]
      intro a
      simp only [List.mem_filter, decide_eq_true_eq]
      tauto
    exact hperm.length_eq
  have hlen2 : (B ++ A.filter (fun x => decide (x ∉ B))).length ≤ n := by
    have p1 := length_filter_add_length_filter_neg A (fun y => decide (y ∈ B))
    have p2 := length_filter_add_length_filter_neg B (fun y => decide (y ∈ A))
    have e1 : (fun y => !(decide (y ∈ B))) = (fun y : String => decide (y ∉ B)) := by
      funext y
      simp [decide_not]
    have e2 : (fun y => !(decide (y ∈ A))) = (fun y : String => decide (y ∉ A)) := by
      funext y
      simp [decide_not]
    rw [e1] at p1
    rw [e2] at p2
    simp only [List.length_append] at hlen ⊢
    omega
  intro x
  rw [keywordSelect_no_trunc_mem A B fb n hx hlen x,
    keywordSelect_no_trunc_mem B A fb2 n hx2 hlen2 x]
  tauto

/-- Witness for `keyword_overlap_swap_same_set`: with phrase sets
`{aa, zz}` and `{zz}` and the default cap 7 nothing is truncated, and both
orders of the extractor contain the phrase `aa`. -/
theorem keyword_overlap_swap_same_set_witness :
    (["aa", "zz"] : List String).Nodup ∧
      (["aa", "zz"] : List String).inter ["zz"] ≠ [] ∧
      ("aa" ∈ keywordSelect ["aa", "zz"] ["zz"] [] 7 ↔
        "aa" ∈ keywordSelect ["zz"] ["aa", "zz"] [] 7) :=
  ⟨by decide, by decide,
    keyword_overlap_swap_same_set ["aa", "zz"] ["zz"] [] [] 7 (by decide)
      (by decide) (by decide) (by decide) "aa"⟩

/-- Occurrence count of a phrase across the two (deduplicated) phrase
sets, as enumerated by `A` and `B`: the "frequency" that the spec's
selection policy refers to. -/
def strFreq (A B : List String) (x : String) : Nat :=
  (if x ∈ A then 1 else 0) + (if x ∈ B then 1 else 0)

/-- C6: when the two phrase sets have empty intersection and non-empty
union, the keyword-overlap extractor returns at most `top_n` phrases, all
drawn from the union, in alphabetical (code-point) order, and the
selection respects descending frequency across both sides (with an empty
intersection every phrase of the union has frequency exactly 1, so no
selection can violate the frequency ordering). -/
theorem keyword_union_branch_props (A B fb : List String) (n : Nat)
    (hx : A.inter B = [])
    (hne : A ++ B.filter (fun x => decide (x ∉ A)) ≠ []) :
    (keywordSelect A B fb n).length ≤ n ∧
      (∀ x ∈ keywordSelect A B fb n, x ∈ A ∨ x ∈ B) ∧
      (keywordSelect A B fb n).Pairwise (fun a b => lexLe a.data b.data = true) ∧
      (∀ x ∈ keywordSelect A B fb n, ∀ y, (y ∈ A ∨ y ∈ B) →
        strFreq A B y ≤ strFreq A B x) := by
  have hks : keywordSelect A B fb n =
      pySorted ((A ++ B.filter (fun x => decide (x ∉ A))).take n) := by
    simp only [keywordSelect, hx, ne_eq, not_true_eq_false, if_false,
      if_neg hne]
  have hfreq1 : ∀ y, (y ∈ A ∨ y ∈ B) → strFreq A B y = 1 := by
    intro y hy
    have hnot : ¬(y ∈ A ∧ y ∈ B) := by
      intro hboth
      have : y ∈ A.inter B := (mem_inter_str A B y).mpr hboth
      rw [hx] at this
      simp at this
    rcases hy with hyA | hyB
    · have : y ∉ B := fun hB => hnot ⟨hyA, hB⟩
      simp [strFreq, hyA, this]
    · have : y ∉ A := fun hA => hnot ⟨hA, hyB⟩
      simp [strFreq, hyB, this]
  have hmem : ∀ x ∈ keywordSelect A B fb n, x ∈ A ∨ x ∈ B := by
    intro x hxm
    rw [hks] at hxm
    have := List.take_subset n _ (pySorted_mem.mp hxm)
    rcases List.mem_append.mp this with h | h
    · exact Or.inl h
    · exact Or.inr (List.mem_filter.mp h).1
  refine ⟨?_, hmem, ?_, ?_⟩
  · rw [hks, (pySorted_perm _).length_eq]
    exact le_trans (List.length_take_le _ _) (le_refl _)
  · rw [hks]
    exact pySorted_sorted _
  · intro x hxm y hy
    rw [hfreq1 y hy, hfreq1 x (hmem x hxm)]


/-- Witness for `keyword_union_branch_props`: phrase sets `{bbb}` and
`{aaa}` have empty intersection and non-empty union, and the conclusion
holds for them with the default cap 7. -/
theorem keyword_union_branch_props_witness :
    (["bbb"] : List String).inter ["aaa"] = [] ∧
      (["bbb"] : List String) ++
        (["aaa"] : List String).filter (fun x => decide (x ∉ (["bbb"] : List String))) ≠ [] ∧
      (keywordSelect ["bbb"] ["aaa"] [] 7).length ≤ 7 :=
  ⟨by decide, by decide,
    (keyword_union_branch_props ["bbb"] ["aaa"] [] 7 (by decide) (by decide)).1⟩


/-- Dot product of two embedding vectors.  sklearn's
`cosine_similarity(X, Y)` divides by the vector norms, which are 1 because
the model is invoked with `normalize_embeddings=True`; the unit-norm
contract is carried as the hypothesis `sumSq (encode s) = 1` in theorems,
under which the cosine similarity is exactly this dot product. -/
def dot (a b : List ℚ) : ℚ := (List.zipWith (· * ·) a b).sum

/-- Squared L2 norm of an embedding vector. -/
def sumSq (a : List ℚ) : ℚ := dot a a

lemma dot_cons (x y : ℚ) (a b : List ℚ) :
    dot (x :: a) (y :: b) = x * y + dot a b := by
  simp [dot]

lemma sumSq_nonneg (a : List ℚ) : 0 ≤ sumSq a := by
  induction a with
  | nil => simp [sumSq, dot]
  | cons x xs ih =>
      rw [sumSq, dot_cons]
      rw [sumSq] at ih
      nlinarith [ih]

lemma dot_eq_sum (a : List ℚ) : ∀ b : List ℚ,
    dot a b = ∑ i in Finset.range (min a.length b.length),
      a.getD i 0 * b.getD i 0 := by
  induction a with
  | nil =>
      intro b
      simp [dot]
  | cons x xs ih =>
      intro b
      cases b with
      | nil => simp [dot]
      | cons y ys =>
          rw [dot_cons, ih ys]
          have hmin : min (x :: xs).length (y :: ys).length =
              min xs.length ys.length + 1 := by
            simp [Nat.succ_min_succ]
          rw [hmin, Finset.sum_range_succ']
          simp [add_comm]

lemma sumSq_eq_sum (a : List ℚ) :
    sumSq a = ∑ i in Finset.range a.length, a.getD i 0 ^ 2 := by
  rw [sumSq, dot_eq_sum, min_self]
  exact Finset.sum_congr rfl (fun i _ => (sq (a.getD i 0)).symm)

lemma dot_sq_le (a b : List ℚ) : dot a b ^ 2 ≤ sumSq a * sumSq b := by
  rw [dot_eq_sum]
  have cs := Finset.sum_mul_sq_le_sq_mul_sq
    (Finset.range (min a.length b.length)) (fun i => a.getD i 0)
    (fun i => b.getD i 0)
  refine le_trans cs ?_
  have h1 : ∑ i in Finset.range (min a.length b.length), a.getD i 0 ^ 2 ≤
      sumSq a := by
    rw [sumSq_eq_sum]
    exact Finset.sum_le_sum_of_subset_of_nonneg
      (Finset.range_subset.mpr (Nat.min_le_left _ _))
      (fun i _ _ => sq_nonneg _)
  have h2 : ∑ i in Finset.range (min a.length b.length), b.getD i 0 ^ 2 ≤
      sumSq b := by
    rw [sumSq_eq_sum]
    exact Finset.sum_le_sum_of_subset_of_nonneg
      (Finset.range_subset.mpr (Nat.min_le_right _ _))
      (fun i _ _ => sq_nonneg _)
  exact mul_le_mul h1 h2 (Finset.sum_nonneg (fun i _ => sq_nonneg _))
    (le_trans (Finset.sum_nonneg (fun i _ => sq_nonneg _)) h1)

lemma dot_le_one {a b : List ℚ} (ha : sumSq a = 1) (hb : sumSq b = 1) :
    dot a b ≤ 1 := by
  have h := dot_sq_le a b
  rw [ha, hb] at h
  nlinarith [h]

/-- Round-half-to-even on a rational, the tie rule of Python 3's `round`. -/
def rhe (q : ℚ) : ℤ :=
  if q - ⌊q⌋ < 1/2 then ⌊q⌋
  else if (1 : ℚ)/2 < q - ⌊q⌋ then ⌊q⌋ + 1
  else if 2 ∣ ⌊q⌋ then ⌊q⌋ else ⌊q⌋ + 1

/-- Python's `round(x, d)` on the idealized rational value. -/
def pyRound (d : Nat) (x : ℚ) : ℚ := (rhe (x * 10 ^ d) : ℚ) / 10 ^ d

lemma rhe_cases (q : ℚ) : rhe q = ⌊q⌋ ∨ rhe q = ⌊q⌋ + 1 := by
  rw [rhe]
  split_ifs <;> simp

lemma floor_le_rhe (q : ℚ) : ⌊q⌋ ≤ rhe q := by
  rcases rhe_cases q with h | h <;> omega

lemma le_rhe_of_lt {n : ℤ} {q : ℚ} (h : (n : ℚ) < q) : n ≤ rhe q :=
  le_trans (Int.le_floor.mpr h.le) (floor_le_rhe q)

lemma rhe_le_of_le {n : ℤ} {q : ℚ} (h : q ≤ (n : ℚ)) : rhe q ≤ n := by
  have hfl : ⌊q⌋ ≤ n := by
    have := Int.floor_le_floor h
    rwa [Int.floor_intCast] at this
  have hlow : (⌊q⌋ : ℚ) ≤ q := Int.floor_le q
  rw [rhe]
  split_ifs with h1 h2 h3
  · exact hfl
  · have hstep : (⌊q⌋ : ℚ) < (n : ℚ) := by linarith
    have := Int.cast_lt.mp hstep
    omega
  · exact hfl
  · have hhalf : (1 : ℚ)/2 ≤ q - ⌊q⌋ := by linarith
    have hstep : (⌊q⌋ : ℚ) < (n : ℚ) := by linarith
    have := Int.cast_lt.mp hstep
    omega

lemma rhe_mono {q r : ℚ} (h : q ≤ r) : rhe q ≤ rhe r := by
  rcases lt_or_le ⌊q⌋ ⌊r⌋ with hf | hf
  · have h1 := rhe_cases q
    have h2 := floor_le_rhe r
    omega
  · have hEq : ⌊q⌋ = ⌊r⌋ := le_antisymm (Int.floor_le_floor h) hf
    have hqr : q - (⌊q⌋ : ℚ) ≤ r - (⌊q⌋ : ℚ) := by linarith
    rw [rhe, rhe, ← hEq]
    split_ifs <;> first | omega | linarith

lemma pyRound_mono (d : Nat) {x y : ℚ} (h : x ≤ y) :
    pyRound d x ≤ pyRound d y := by
  have hr : rhe (x * 10 ^ d) ≤ rhe (y * 10 ^ d) :=
    rhe_mono (mul_le_mul_of_nonneg_right h (by positivity))
  rw [pyRound, pyRound]
  have hc : ((rhe (x * 10 ^ d) : ℤ) : ℚ) ≤ ((rhe (y * 10 ^ d) : ℤ) : ℚ) := by
    exact_mod_cast hr
  gcongr

lemma pyRound4_le_one {x : ℚ} (h : x ≤ 1) : pyRound 4 x ≤ 1 := by
  have hr : rhe (x * 10 ^ 4) ≤ 10000 :=
    rhe_le_of_le (by push_cast; nlinarith)
  rw [pyRound, div_le_one (by norm_num : (0:ℚ) < 10 ^ 4)]
  have hc : ((rhe (x * 10 ^ 4) : ℤ) : ℚ) ≤ ((10000 : ℤ) : ℚ) := by
    exact_mod_cast hr
  push_cast at hc
  linarith [hc]

lemma pyRound4_ge_floor {x : ℚ} (h : 1/10 < x) : 1/10 ≤ pyRound 4 x := by
  have hr : (1000 : ℤ) ≤ rhe (x * 10 ^ 4) :=
    le_rhe_of_lt (by push_cast; nlinarith)
  rw [pyRound, le_div_iff₀ (by norm_num : (0:ℚ) < 10 ^ 4)]
  have hc : ((1000 : ℤ) : ℚ) ≤ ((rhe (x * 10 ^ 4) : ℤ) : ℚ) := by
    exact_mod_cast hr
  push_cast at hc
  have hgoal : (1 : ℚ)/10 * 10 ^ 4 = 1000 := by norm_num
  rw [hgoal]
  linarith [hc]

/-- The contract of `np.argsort(xs)` (matching.py line 192 applies it to
the negated similarity array): the result is a permutation of the index
range of `xs` along which the values are non-decreasing.  numpy's default
sort kind (`quicksort`, an introsort) guarantees nothing about the
relative order of equal values — only `kind='stable'`/`'mergesort'` do —
so the contract deliberately leaves the order of ties unspecified. -/
def ArgsortAsc (xs : List ℚ) (ord : List Nat) : Prop :=
  ord.Perm (List.range xs.length) ∧
    ord.Pairwise (fun i j => xs.getD i 0 ≤ xs.getD j 0)

/-- One executable argsort satisfying the contract (a stable mergesort by
value), used to instantiate the oracle parameter in witnesses. -/
def argsortAsc (xs : List ℚ) : List Nat :=
  (List.range xs.length).mergeSort (fun i j => decide (xs.getD i 0 ≤ xs.getD j 0))

lemma argsortAsc_valid (xs : List ℚ) : ArgsortAsc xs (argsortAsc xs) := by
  constructor
  · exact List.mergeSort_perm _ _
  · have h := @List.sorted_mergeSort Nat
      (fun i j => decide (xs.getD i 0 ≤ xs.getD j 0))
      (fun a b c hab hbc => by
        simp only [decide_eq_true_eq] at *
        exact le_trans hab hbc)
      (fun a b => by
        simp only [Bool.or_eq_true, decide_eq_true_eq]
        exact le_total _ _)
      (List.range xs.length)
    refine List.Pairwise.imp ?_ h
    intro a b hab
    simpa using hab


/-- Placeholder used for the (unreachable under the argsort contract)
out-of-range index access `candidates[idx]`. -/
def defaultResearcher : Researcher :=
  { name := "", email := "", researcher_type := "" }

/-- One result entry of `find_matches` (the dictionary built at
matching.py lines 202-228).  Dictionary keys that are only present for one
candidate population are modelled as `Option` fields that are `none` when
the key is absent. -/
structure MatchInfo where
  rank : Nat
  name : String
  email : String
  organization : String
  researcher_type : String
  similarity_score : ℚ
  similarity_percentage : ℚ
  matching_keywords : List String
  faculty_department : Option String := none
  primary_areas : Option String := none
  experience_summary : Option String := none
  organization_focus : Option String := none
  expertise_sought : Option String := none
  challenge_description : Option String := none
deriving DecidableEq, Repr

/-- Construction of a single match entry (matching.py lines 202-228),
given the raw similarity `s`: the stored score is `round(s, 4)` and the
percentage `round(s*100, 2)`. -/
def mkMatchInfo (researcher candidate : Researcher) (rank : Nat) (s : ℚ) :
    MatchInfo :=
  { rank := rank
    name := candidate.name
    email := candidate.email
    organization := candidate.organization
    researcher_type := candidate.researcher_type
    similarity_score := pyRound 4 s
    similarity_percentage := pyRound 2 (s * 100)
    matching_keywords :=
      if researcher.researcher_type = "internal" then
        find_relevant_keywords researcher candidate 7
      else find_relevant_keywords candidate researcher 7
    faculty_department :=
      if candidate.researcher_type = "internal" then
        candidate.faculty_department else none
    primary_areas :=
      if candidate.researcher_type = "internal" then
        candidate.primary_areas else none
    experience_summary :=
      if candidate.researcher_type = "internal" then
        candidate.experience_summary else none
    organization_focus :=
      if candidate.researcher_type = "internal" then none
      else candidate.organization_focus
    expertise_sought :=
      if candidate.researcher_type = "internal" then none
      else candidate.expertise_sought
    challenge_description :=
      if candidate.researcher_type = "internal" then none
      else candidate.challenge_description }

/-- The ranked filtering loop of matching.py lines 195-230
(`for rank, idx in enumerate(top_indices, start=1)`): the rank counts
every index of `top_indices`, kept or filtered, and an entry is kept only
when its similarity strictly exceeds the 0.1 relevance floor. -/
def buildMatches (researcher : Researcher) (candidates : List Researcher)
    (sims : List ℚ) : List Nat → Nat → List MatchInfo
  | [], _ => []
  | idx :: rest, rank =>
      let tail := buildMatches researcher candidates sims rest (rank + 1)
      if 1/10 < sims.getD idx 0 then
        mkMatchInfo researcher (candidates.getD idx defaultResearcher) rank
          (sims.getD idx 0) :: tail
      else tail

/-- Result of `find_matches` together with the number of
embedding-provider invocations (`model.encode` calls) the run performs. -/
structure FindResult where
  match_list : List MatchInfo
  encode_calls : Nat
deriving DecidableEq, Repr

/-- `find_matches` from matching.py lines 147-232.  Parameters of the
embedding: `db` is the `Researcher` table in insertion order (the
candidate queries `Researcher.query.filter_by(researcher_type=...)` become
list filters), `encode` is the external Sentence-Transformer model
(§4.3 contract), and `argsort` is the `np.argsort` oracle, applied to the
negated similarity list exactly as at line 192.  The guard
`if not researcher` (line 158) cannot fire for a value of type
`Researcher` and has no embedded counterpart. -/
def find_matches (db : List Researcher) (encode : String → List ℚ)
    (argsort : List ℚ → List Nat) (researcher : Researcher) (top_n : Nat) :
    FindResult :=
  let candidates :=
    if researcher.researcher_type = "internal" then
      db.filter (fun c => decide (c.researcher_type = "external"))
    else db.filter (fun c => decide (c.researcher_type = "internal"))
  if candidates = [] then ⟨[], 0⟩
  else
    let target_text := build_text_for_matching researcher
    let candidate_texts := candidates.map build_text_for_matching
    if pyStrip target_text.data = [] then ⟨[], 0⟩
    else
      let target_embedding := encode target_text
      let candidate_embeddings := candidate_texts.map encode
      let similarities := candidate_embeddings.map (fun v => dot target_embedding v)
      let top_indices := (argsort (similarities.map (fun s => -s))).take top_n
      ⟨buildMatches researcher candidates similarities top_indices 1, 2⟩

lemma build_text_empty_internal (r : Researcher)
    (ht : r.researcher_type = "internal") (h1 : r.primary_areas.getD "" = "")
    (h2 : r.experience_summary.getD "" = "")
    (h3 : r.sectors_interested.getD "" = "") :
    build_text_for_matching r = "" := by
  simp only [build_text_for_matching, joinDotSpace, ht, if_pos, h1, h2, h3]
  decide

lemma build_text_empty_external (r : Researcher)
    (ht : ¬ r.researcher_type = "internal")
    (h1 : r.expertise_sought.getD "" = "")
    (h2 : r.organization_focus.getD "" = "")
    (h3 : r.challenge_description.getD "" = "") :
    build_text_for_matching r = "" := by
  simp only [build_text_for_matching, joinDotSpace, if_neg ht, h1, h2, h3]
  decide

/-- C9: when no researcher of the opposite population exists in the
database, `find_matches` returns the empty list and performs no
embedding-provider call (the empty-pool check at matching.py lines 169-170
precedes `get_model()` and both `model.encode` calls). -/
theorem find_matches_empty_pool (db : List Researcher)
    (encode : String → List ℚ) (argsort : List ℚ → List Nat)
    (r : Researcher) (n : Nat)
    (h : ∀ c ∈ db, ¬ c.researcher_type =
      (if r.researcher_type = "internal" then "external" else "internal")) :
    find_matches db encode argsort r n = ⟨[], 0⟩ := by
  by_cases ht : r.researcher_type = "internal"
  · have hc : db.filter (fun c => decide (c.researcher_type = "external")) = [] := by
      rw [List.filter_eq_nil_iff]
      intro c hcdb
      have := h c hcdb
      rw [if_pos ht] at this
      simpa using this
    simp [find_matches, ht, hc]
  · have hc : db.filter (fun c => decide (c.researcher_type = "internal")) = [] := by
      rw [List.filter_eq_nil_iff]
      intro c hcdb
      have := h c hcdb
      rw [if_neg ht] at this
      simpa using this
    simp [find_matches, ht, hc]

/-- Witness for `find_matches_empty_pool`: an internal researcher queried
against a database containing only internal researchers gets the empty
result with zero provider calls. -/
theorem find_matches_empty_pool_witness :
    find_matches
        [{ name := "n", email := "i@x", researcher_type := "internal" }]
        (fun _ => []) (fun _ => [])
        { name := "n", email := "i@x", researcher_type := "internal" } 5 =
      ⟨[], 0⟩ :=
  find_matches_empty_pool _ _ _ _ _ (by decide)

/-- C4: a profile whose contributing text attributes are all empty or
missing has empty composite text; `find_matches` then returns the empty
list without invoking the embedding provider (the empty-text check at
matching.py lines 176-179 precedes `get_model()` and both `model.encode`
calls), and, being a total function, it raises no exception. -/
theorem find_matches_empty_text (db : List Researcher)
    (encode : String → List ℚ) (argsort : List ℚ → List Nat)
    (r : Researcher) (n : Nat)
    (h1 : r.researcher_type = "internal" → r.primary_areas.getD "" = "" ∧
      r.experience_summary.getD "" = "" ∧ r.sectors_interested.getD "" = "")
    (h2 : ¬ r.researcher_type = "internal" → r.expertise_sought.getD "" = "" ∧
      r.organization_focus.getD "" = "" ∧
      r.challenge_description.getD "" = "") :
    find_matches db encode argsort r n = ⟨[], 0⟩ := by
  have htext : build_text_for_matching r = "" := by
    by_cases ht : r.researcher_type = "internal"
    · obtain ⟨a, b, c⟩ := h1 ht
      exact build_text_empty_internal r ht a b c
    · obtain ⟨a, b, c⟩ := h2 ht
      exact build_text_empty_external r ht a b c
  have hps : pyStrip ("" : String).data = [] := by decide
  simp only [find_matches, htext, hps]
  split_ifs <;> simp_all


/-- Witness for `find_matches_empty_text`: an internal researcher with all
attributes missing, queried against a pool containing an external
candidate, yields the empty result with zero provider calls. -/
theorem find_matches_empty_text_witness :
    find_matches
        [{ name := "m", email := "e@y", researcher_type := "external",
           expertise_sought := some "AI" }]
        (fun _ => []) (fun _ => [])
        { name := "n", email := "i@x", researcher_type := "internal" } 5 =
      ⟨[], 0⟩ :=
  find_matches_empty_text _ _ _ _ _ (fun _ => by decide) (fun h => absurd rfl h)

lemma buildMatches_nil_of_le (r : Researcher) (cs : List Researcher)
    (sims : List ℚ) :
    ∀ idxs rank, (∀ j ∈ idxs, sims.getD j 0 ≤ 1/10) →
      buildMatches r cs sims idxs rank = [] := by
  intro idxs
  induction idxs with
  | nil => intro rank _; rfl
  | cons idx rest ih =>
      intro rank h
      rw [buildMatches, if_neg (by simpa using h idx (by simp))]
      exact ih (rank + 1) (fun j hj => h j (by simp [hj]))

lemma buildMatches_length (r : Researcher) (cs : List Researcher)
    (sims : List ℚ) :
    ∀ idxs rank, (buildMatches r cs sims idxs rank).length ≤ idxs.length := by
  intro idxs
  induction idxs with
  | nil => intro rank; simp [buildMatches]
  | cons idx rest ih =>
      intro rank
      rw [buildMatches]
      by_cases h : 1/10 < sims.getD idx 0
      · rw [if_pos h]
        simpa using Nat.succ_le_succ (ih (rank + 1))
      · rw [if_neg h]
        exact le_trans (ih (rank + 1)) (by simp)

lemma buildMatches_mem (r : Researcher) (cs : List Researcher)
    (sims : List ℚ) :
    ∀ idxs rank m, m ∈ buildMatches r cs sims idxs rank →
      ∃ j ∈ idxs, m.similarity_score = pyRound 4 (sims.getD j 0) ∧
        1/10 < sims.getD j 0 := by
  intro idxs
  induction idxs with
  | nil => intro rank m hm; simp [buildMatches] at hm
  | cons idx rest ih =>
      intro rank m hm
      rw [buildMatches] at hm
      by_cases h : 1/10 < sims.getD idx 0
      · rw [if_pos h] at hm
        rcases List.mem_cons.mp hm with rfl | hm
        · exact ⟨idx, by simp, rfl, h⟩
        · obtain ⟨j, hj, hsc⟩ := ih (rank + 1) m hm
          exact ⟨j, by simp [hj], hsc⟩
      · rw [if_neg h] at hm
        obtain ⟨j, hj, hsc⟩ := ih (rank + 1) m hm
        exact ⟨j, by simp [hj], hsc⟩

lemma buildMatches_ranks (r : Researcher) (cs : List Researcher)
    (sims : List ℚ) :
    ∀ idxs rank,
      idxs.Pairwise (fun i j => sims.getD j 0 ≤ sims.getD i 0) →
      (buildMatches r cs sims idxs rank).map (fun m => m.rank) =
        List.range' rank (buildMatches r cs sims idxs rank).length := by
  intro idxs
  induction idxs with
  | nil => intro rank _; simp [buildMatches]
  | cons idx rest ih =>
      intro rank hp
      rw [List.pairwise_cons] at hp
      obtain ⟨hd, tl⟩ := hp
      rw [buildMatches]
      by_cases h : 1/10 < sims.getD idx 0
      · rw [if_pos h]
        simp only [List.map_cons, List.length_cons, List.range'_succ]
        exact congrArg (rank :: ·) (ih (rank + 1) tl)
      · rw [if_neg h]
        rw [buildMatches_nil_of_le r cs sims rest (rank + 1)
          (fun j hj => le_trans (hd j hj) (le_of_not_lt h))]
        rfl

lemma buildMatches_sorted (r : Researcher) (cs : List Researcher)
    (sims : List ℚ) :
    ∀ idxs rank,
      idxs.Pairwise (fun i j => sims.getD j 0 ≤ sims.getD i 0) →
      ((buildMatches r cs sims idxs rank).map
        (fun m => m.similarity_score)).Pairwise (fun a b => b ≤ a) := by
  intro idxs
  induction idxs with
  | nil => intro rank _; simp [buildMatches]
  | cons idx rest ih =>
      intro rank hp
      rw [List.pairwise_cons] at hp
      obtain ⟨hd, tl⟩ := hp
      rw [buildMatches]
      by_cases h : 1/10 < sims.getD idx 0
      · rw [if_pos h]
        rw [List.map_cons, List.pairwise_cons]
        constructor
        · intro y hy
          obtain ⟨m, hm, rfl⟩ := List.mem_map.mp hy
          obtain ⟨j, hj, hsc, -⟩ := buildMatches_mem r cs sims rest (rank + 1) m hm
          rw [hsc]
          exact pyRound_mono 4 (hd j hj)
        · exact ih (rank + 1) tl
      · rw [if_neg h]
        exact ih (rank + 1) tl

lemma buildMatches_score_bounds (r : Researcher) (cs : List Researcher)
    (sims : List ℚ) (hle : ∀ x ∈ sims, x ≤ 1) :
    ∀ idxs rank m, m ∈ buildMatches r cs sims idxs rank →
      1/10 ≤ m.similarity_score ∧ m.similarity_score ≤ 1 := by
  intro idxs rank m hm
  obtain ⟨j, -, hsc, hgt⟩ := buildMatches_mem r cs sims idxs rank m hm
  have hle1 : sims.getD j 0 ≤ 1 := by
    by_cases hj : j < sims.length
    · rw [List.getD_eq_getElem _ _ hj]
      exact hle _ (List.getElem_mem _)
    · rw [List.getD_eq_default _ _ (le_of_not_lt hj)]
      norm_num
  rw [hsc]
  exact ⟨pyRound4_ge_floor hgt, pyRound4_le_one hle1⟩

lemma getD_map_neg (l : List ℚ) (i : Nat) :
    (l.map (fun s => -s)).getD i 0 = -(l.getD i 0) := by
  by_cases h : i < l.length
  · rw [List.getD_eq_getElem _ _ (by simpa using h), List.getD_eq_getElem _ _ h]
    simp
  · rw [List.getD_eq_default _ _ (by simpa using le_of_not_lt h),
      List.getD_eq_default _ _ (le_of_not_lt h)]
    norm_num


/-- C1 amended: for a profile with non-empty composite text and a
non-empty candidate pool, under the embedding-provider contract
(unit-normalized vectors, §4.3) and the `np.argsort` contract,
`find_matches` returns at most `top_n` entries; each entry's stored
`similarity_score` (`round(s, 4)`) lies in `[0.1, 1]` — the unrounded
similarity is strictly above the 0.1 floor, but rounding can map it to
exactly 0.1, which is why the interval is closed on the left — the scores
are non-increasing in rank, and the ranks are consecutive starting at 1. -/
theorem find_matches_ranked_output (db : List Researcher)
    (encode : String → List ℚ) (argsort : List ℚ → List Nat)
    (r : Researcher) (n : Nat)
    (hU : ∀ s, sumSq (encode s) = 1)
    (hA : ∀ xs, ArgsortAsc xs (argsort xs))
    (hpool : (if r.researcher_type = "internal" then
        db.filter (fun c => decide (c.researcher_type = "external"))
      else db.filter (fun c => decide (c.researcher_type = "internal"))) ≠ [])
    (htext : pyStrip (build_text_for_matching r).data ≠ []) :
    (find_matches db encode argsort r n).match_list.length ≤ n ∧
      (∀ m ∈ (find_matches db encode argsort r n).match_list,
        1/10 ≤ m.similarity_score ∧ m.similarity_score ≤ 1) ∧
      ((find_matches db encode argsort r n).match_list.map
        (fun m => m.similarity_score)).Pairwise (fun a b => b ≤ a) ∧
      (find_matches db encode argsort r n).match_list.map (fun m => m.rank) =
        List.range' 1 (find_matches db encode argsort r n).match_list.length := by
  have hfm : find_matches db encode argsort r n =
      ⟨buildMatches r
        (if r.researcher_type = "internal" then
          db.filter (fun c => decide (c.researcher_type = "external"))
        else db.filter (fun c => decide (c.researcher_type = "internal")))
        (((if r.researcher_type = "internal" then
            db.filter (fun c => decide (c.researcher_type = "external"))
          else db.filter (fun c => decide (c.researcher_type = "internal"))).map
            build_text_for_matching).map
          (fun t => dot (encode (build_text_for_matching r)) (encode t)))
        ((argsort ((((if r.researcher_type = "internal" then
            db.filter (fun c => decide (c.researcher_type = "external"))
          else db.filter (fun c => decide (c.researcher_type = "internal"))).map
            build_text_for_matching).map
          (fun t => dot (encode (build_text_for_matching r)) (encode t))).map
            (fun s => -s))).take n) 1, 2⟩ := by
    simp only [find_matches, if_neg hpool, if_neg htext, List.map_map]
    rfl
  set cs := (if r.researcher_type = "internal" then
      db.filter (fun c => decide (c.researcher_type = "external"))
    else db.filter (fun c => decide (c.researcher_type = "internal")))
    with hcs
  set sims := ((cs.map build_text_for_matching).map
    (fun t => dot (encode (build_text_for_matching r)) (encode t))) with hsims
  set idxs := (argsort (sims.map (fun s => -s))).take n with hidxs
  have hsim_le : ∀ x ∈ sims, x ≤ 1 := by
    intro x hx
    rw [hsims] at hx
    obtain ⟨t, -, rfl⟩ := List.mem_map.mp hx
    exact dot_le_one (hU _) (hU _)
  have hp : idxs.Pairwise (fun i j => sims.getD j 0 ≤ sims.getD i 0) := by
    have h2 := (hA (sims.map (fun s => -s))).2
    have h3 : (argsort (sims.map (fun s => -s))).Pairwise
        (fun i j => sims.getD j 0 ≤ sims.getD i 0) := by
      refine List.Pairwise.imp ?_ h2
      intro i j hij
      rw [getD_map_neg, getD_map_neg] at hij
      linarith
    exact h3.sublist (List.take_sublist n _)
  rw [hfm]
  refine ⟨?_, ?_, ?_, ?_⟩
  · exact le_trans (buildMatches_length r cs sims idxs 1)
      (by rw [hidxs]; exact List.length_take_le n _)
  · intro m hm
    exact buildMatches_score_bounds r cs sims hsim_le idxs 1 m hm
  · exact buildMatches_sorted r cs sims idxs 1 hp
  · exact buildMatches_ranks r cs sims idxs 1 hp


/-- Witness for `find_matches_ranked_output`: a concrete internal
researcher, a one-candidate external pool and a constant unit embedding
satisfy all hypotheses, and the returned list has at most 5 entries. -/
theorem find_matches_ranked_output_witness :
    (∀ s, sumSq ((fun _ : String => ([1] : List ℚ)) s) = 1) ∧
      (find_matches
          [{ name := "m", email := "e@y", researcher_type := "external",
             expertise_sought := some "bb" }]
          (fun _ : String => ([1] : List ℚ)) argsortAsc
          { name := "n", email := "i@x", researcher_type := "internal",
            primary_areas := some "aa" } 5).match_list.length ≤ 5 :=
  ⟨fun _ => by norm_num [sumSq, dot],
    (find_matches_ranked_output _ _ _ _ _ (fun _ => by norm_num [sumSq, dot])
      argsortAsc_valid (by decide) (by decide)).1⟩

/-- C1 as stated: with non-empty composite text and a non-empty candidate
pool (and under the §4.3 unit-norm contract of the embedding provider and
the `np.argsort` contract), every entry of `find_matches` is claimed to
carry a `similarity_score` in the open-below interval (0.1, 1], with at
most `top_n` entries, non-increasing scores and ranks starting at 1. -/
def FindMatchesScoreClaim : Prop :=
  ∀ (db : List Researcher) (encode : String → List ℚ)
    (argsort : List ℚ → List Nat) (r : Researcher) (n : Nat),
    (∀ s, sumSq (encode s) = 1) →
    (∀ xs, ArgsortAsc xs (argsort xs)) →
    (if r.researcher_type = "internal" then
        db.filter (fun c => decide (c.researcher_type = "external"))
      else db.filter (fun c => decide (c.researcher_type = "internal"))) ≠ [] →
    pyStrip (build_text_for_matching r).data ≠ [] →
    (find_matches db encode argsort r n).match_list.length ≤ n ∧
      (∀ m ∈ (find_matches db encode argsort r n).match_list,
        1/10 < m.similarity_score ∧ m.similarity_score ≤ 1) ∧
      ((find_matches db encode argsort r n).match_list.map
        (fun m => m.similarity_score)).Pairwise (fun a b => b ≤ a) ∧
      (find_matches db encode argsort r n).match_list.map (fun m => m.rank) =
        List.range' 1 (find_matches db encode argsort r n).match_list.length

lemma find_matches_singleton (db : List Researcher)
    (encode : String → List ℚ) (argsort : List ℚ → List Nat)
    (r c : Researcher) (n : Nat) (hn : 1 ≤ n)
    (hcs : (if r.researcher_type = "internal" then
        db.filter (fun x => decide (x.researcher_type = "external"))
      else db.filter (fun x => decide (x.researcher_type = "internal"))) = [c])
    (htext : ¬ pyStrip (build_text_for_matching r).data = [])
    (hargs : argsort
      [-(dot (encode (build_text_for_matching r))
        (encode (build_text_for_matching c)))] = [0])
    (hgt : 1/10 < dot (encode (build_text_for_matching r))
      (encode (build_text_for_matching c))) :
    (find_matches db encode argsort r n).match_list.map
        (fun m => m.similarity_score) =
      [pyRound 4 (dot (encode (build_text_for_matching r))
        (encode (build_text_for_matching c)))] := by
  obtain ⟨n', rfl⟩ : ∃ n', n = n' + 1 :=
    ⟨n - 1, by omega⟩
  simp only [find_matches, hcs, List.map_cons, List.map_nil]
  rw [if_neg (by simp), if_neg htext, hargs]
  simp only [List.take_succ_cons, List.take_nil]
  rw [buildMatches]
  rw [if_pos (by simpa using hgt)]
  simp [buildMatches, mkMatchInfo]

/-- The similarity value of the C1 counterexample: the first coordinate of
a rational point on the unit sphere, chosen inside (0.1, 0.10005) so that
`round(s, 4)` lands exactly on the 0.1 relevance floor. -/
def alphaC : ℚ := 72755559/727244441

/-- Second coordinate of the counterexample's candidate embedding. -/
def betaC : ℚ := 719160000/727244441

/-- Third coordinate of the counterexample's candidate embedding. -/
def gammaC : ℚ := 80000000/727244441

/-- Counterexample embedding provider: the query text is sent to the first
standard basis vector, every other text to the unit vector
`(alphaC, betaC, gammaC)`; all outputs are unit-normalized as §4.3
requires. -/
def encodeC : String → List ℚ := fun s =>
  if s = "aa" then [1, 0, 0] else [alphaC, betaC, gammaC]

lemma encodeC_unit : ∀ s, sumSq (encodeC s) = 1 := by
  intro s
  rw [encodeC]
  split_ifs
  · norm_num [sumSq, dot]
  · norm_num [sumSq, dot, alphaC, betaC, gammaC]

lemma argsortAsc_singleton (x : ℚ) : argsortAsc [x] = [0] := by
  rw [argsortAsc]
  have hr : List.range ([x] : List ℚ).length = [0] := by
    simp [List.range_succ]
  rw [hr]
  exact List.perm_singleton.mp
    (List.mergeSort_perm [0] (fun i j => decide (([x] : List ℚ).getD i 0 ≤ [x].getD j 0)))

lemma dotC : dot (encodeC "aa") (encodeC "bb") = alphaC := by
  rw [encodeC]
  rw [if_pos rfl, encodeC, if_neg (by decide)]
  simp only [dot, List.zipWith, List.sum_cons, List.sum_nil]
  ring

lemma pyRound4_alphaC : pyRound 4 alphaC = 1/10 := by
  have hfl : ⌊alphaC * 10 ^ 4⌋ = 1000 := by
    rw [Int.floor_eq_iff]
    constructor
    · norm_num [alphaC]
    · norm_num [alphaC]
  rw [pyRound, rhe, hfl]
  rw [if_pos (by norm_num [alphaC])]
  norm_num

/-- C1 counterexample: with the unit embedding `encodeC` the raw cosine
similarity is `alphaC ≈ 0.10004`, which passes the strict `> 0.1` filter,
but the stored score `round(alphaC, 4)` is exactly 0.1 — outside the
claimed open interval (0.1, 1]. -/
theorem find_matches_score_floor_counterexample : ¬ FindMatchesScoreClaim := by
  intro h
  obtain ⟨-, hsc, -, -⟩ := h
    [{ name := "m", email := "e@y", researcher_type := "external",
       expertise_sought := some "bb" }]
    encodeC argsortAsc
    { name := "n", email := "i@x", researcher_type := "internal",
      primary_areas := some "aa" } 5
    encodeC_unit argsortAsc_valid (by decide) (by decide)
  have hb1 : build_text_for_matching
      { name := "n", email := "i@x", researcher_type := "internal",
        primary_areas := some "aa" } = "aa" := by decide
  have hb2 : build_text_for_matching
      { name := "m", email := "e@y", researcher_type := "external",
        expertise_sought := some "bb" } = "bb" := by decide
  have hmap := find_matches_singleton
    [{ name := "m", email := "e@y", researcher_type := "external",
       expertise_sought := some "bb" }]
    encodeC argsortAsc
    { name := "n", email := "i@x", researcher_type := "internal",
      primary_areas := some "aa" }
    { name := "m", email := "e@y", researcher_type := "external",
      expertise_sought := some "bb" } 5 (by omega) (by decide) (by decide)
    (by rw [hb1, hb2, dotC]; exact argsortAsc_singleton _)
    (by rw [hb1, hb2, dotC]; norm_num [alphaC])
  rw [hb1, hb2, dotC, pyRound4_alphaC] at hmap
  have hmem : (1/10 : ℚ) ∈ (find_matches
      [{ name := "m", email := "e@y", researcher_type := "external",
         expertise_sought := some "bb" }]
      encodeC argsortAsc
      { name := "n", email := "i@x", researcher_type := "internal",
        primary_areas := some "aa" } 5).match_list.map
      (fun m => m.similarity_score) := by
    rw [hmap]
    simp
  obtain ⟨m, hm, hms⟩ := List.mem_map.mp hmem
  have hlt := (hsc m hm).1
  rw [hms] at hlt
  exact absurd hlt (by norm_num)


/-- C3 as stated: every index permutation satisfying the contract of the
`np.argsort` call at matching.py line 192 is claimed to break ties by
candidate insertion order (a stable sort), which would make the ranked
candidate order deterministic. -/
def ArgsortStableClaim : Prop :=
  ∀ (xs : List ℚ) (ord : List Nat), ArgsortAsc xs ord →
    ord.Pairwise (fun i j => xs.getD i 0 ≤ xs.getD j 0 ∧
      (xs.getD i 0 = xs.getD j 0 → i < j))

/-- C3 counterexample: for the tied similarity list `[0, 0]` the
permutation `[1, 0]` satisfies everything `np.argsort`'s default
(non-stable) kind guarantees, yet places the later candidate first, so
insertion-order tie-breaking is not a consequence of the code's sort. -/
theorem argsort_stability_counterexample : ¬ ArgsortStableClaim := by
  intro h
  have h1 := h [0, 0] [1, 0]
    ⟨by decide, by
      simp only [List.pairwise_cons, List.mem_singleton, List.pairwise_singleton]
      constructor
      · intro j hj
        subst hj
        simp [List.getD_cons_zero, List.getD_cons_succ]
      · trivial⟩
  rw [List.pairwise_cons] at h1
  obtain ⟨-, himp⟩ := h1.1 0 (by simp)
  have := himp (by simp [List.getD_cons_zero, List.getD_cons_succ])
  omega

/-- C3 amended: candidates are sorted by descending similarity, and the
similarity sequence read along any two outputs satisfying the `np.argsort`
contract is identical (the score ranking is deterministic); the relative
order of tied candidates, however, is not determined — numpy's default
sort kind is not stable, so insertion-order tie-breaking is not
guaranteed, as the counterexample records. -/
theorem argsort_scores_deterministic (xs : List ℚ) (ord1 ord2 : List Nat)
    (h1 : ArgsortAsc xs ord1) (h2 : ArgsortAsc xs ord2) :
    ord1.map (fun i => xs.getD i 0) = ord2.map (fun i => xs.getD i 0) := by
  have hperm : (ord1.map (fun i => xs.getD i 0)).Perm
      (ord2.map (fun i => xs.getD i 0)) :=
    (h1.1.trans h2.1.symm).map _
  have hs1 : (ord1.map (fun i => xs.getD i 0)).Pairwise (· ≤ ·) :=
    List.pairwise_map.mpr h1.2
  have hs2 : (ord2.map (fun i => xs.getD i 0)).Pairwise (· ≤ ·) :=
    List.pairwise_map.mpr h2.2
  exact List.eq_of_perm_of_sorted hperm hs1 hs2

/-- Witness for `argsort_scores_deterministic`: the tied list `[0, 0]`
admits the two valid argsort outputs `[0, 1]` and `[1, 0]`, and the score
sequences read along them agree. -/
theorem argsort_scores_deterministic_witness :
    ArgsortAsc [0, 0] [0, 1] ∧ ArgsortAsc [0, 0] [1, 0] ∧
      ([0, 1].map (fun i => ([0, 0] : List ℚ).getD i 0) =
        [1, 0].map (fun i => ([0, 0] : List ℚ).getD i 0)) := by
  have ha1 : ArgsortAsc [0, 0] [0, 1] := by
    refine ⟨by decide, ?_⟩
    simp only [List.pairwise_cons, List.mem_singleton, List.pairwise_singleton]
    constructor
    · intro j hj
      subst hj
      simp [List.getD_cons_zero, List.getD_cons_succ]
    · trivial
  have ha2 : ArgsortAsc [0, 0] [1, 0] := by
    refine ⟨by decide, ?_⟩
    simp only [List.pairwise_cons, List.mem_singleton, List.pairwise_singleton]
    constructor
    · intro j hj
      subst hj
      simp [List.getD_cons_zero, List.getD_cons_succ]
    · trivial
  exact ⟨ha1, ha2, argsort_scores_deterministic [0, 0] [0, 1] [1, 0] ha1 ha2⟩


/-- Python runtime errors surfaced by the embedding. -/
inductive PyErr where
  | nameError
deriving DecidableEq, Repr

/-- The result-building loop of `find_matches_for_researcher` (matching.py
lines 284-319).  Inside the `if similarity_score > 0.1` branch, line 302
reads the name `researcher`, which is bound nowhere in that function (the
parameter is `email` and the looked-up object is called `target`), so
Python raises `NameError` on the first candidate that clears the 0.1
floor; no entry is ever appended. -/
def buildMatchesByEmail (sims : List ℚ) :
    List Nat → Nat → Except PyErr (List MatchInfo)
  | [], _ => .ok []
  | idx :: rest, rank =>
      if 1/10 < sims.getD idx 0 then .error .nameError
      else buildMatchesByEmail sims rest (rank + 1)

/-- `find_matches_for_researcher` from matching.py lines 234-321: look the
researcher up by email, then run the same pipeline as `find_matches`; the
result loop is `buildMatchesByEmail`, which raises `NameError` instead of
producing entries (see its doc comment). -/
def find_matches_for_researcher (db : List Researcher)
    (encode : String → List ℚ) (argsort : List ℚ → List Nat)
    (email : String) (top_n : Nat) : Except PyErr (List MatchInfo) :=
  match db.find? (fun r => decide (r.email = email)) with
  | none => .ok []
  | some target =>
      let candidates :=
        if target.researcher_type = "internal" then
          db.filter (fun c => decide (c.researcher_type = "external"))
        else db.filter (fun c => decide (c.researcher_type = "internal"))
      if candidates = [] then .ok []
      else
        let target_text := build_text_for_matching target
        if pyStrip target_text.data = [] then .ok []
        else
          let similarities := (candidates.map build_text_for_matching).map
            (fun t => dot (encode target_text) (encode t))
          let top_indices := (argsort (similarities.map (fun s => -s))).take top_n
          buildMatchesByEmail similarities top_indices 1

/-- Internal researcher of the C10 failing input. -/
def rIB : Researcher :=
  { name := "n", email := "i@x", researcher_type := "internal",
    primary_areas := some "aa" }

/-- External candidate of the C10 failing input. -/
def cEB : Researcher :=
  { name := "m", email := "e@y", researcher_type := "external",
    expertise_sought := some "bb" }

/-- C10: the by-email variant is NOT equivalent to lookup followed by
`find_matches`.  On a database where the looked-up internal researcher has
one external candidate with similarity 1, `find_matches` returns one match
entry, while `find_matches_for_researcher` raises `NameError` (matching.py
line 302 references the unbound name `researcher`); the two paths agree
only when the result is empty. -/
theorem find_matches_for_researcher_name_error :
    find_matches_for_researcher [rIB, cEB] (fun _ : String => ([1] : List ℚ))
        argsortAsc "i@x" 5 = .error .nameError ∧
      (find_matches [rIB, cEB] (fun _ : String => ([1] : List ℚ)) argsortAsc
        rIB 5).match_list.length = 1 := by
  constructor
  · have hfind : ([rIB, cEB] : List Researcher).find?
        (fun r => decide (r.email = "i@x")) = some rIB := by decide
    rw [find_matches_for_researcher, hfind]
    have hflt : ([rIB, cEB] : List Researcher).filter
        (fun c => decide (c.researcher_type = "external")) = [cEB] := by decide
    have hdot1 : dot ([1] : List ℚ) [1] = 1 := by
      simp [dot]
    simp only [show rIB.researcher_type = "internal" from rfl,
      eq_self_iff_true, if_true, hflt]
    rw [if_neg (by decide), if_neg (by decide)]
    simp only [List.map_cons, List.map_nil, hdot1, argsortAsc_singleton]
    rw [show List.take 5 [0] = [0] from by decide]
    rw [buildMatchesByEmail]
    rw [if_pos (show (1 : ℚ)/10 < ([1] : List ℚ).getD 0 0 from by
      rw [List.getD_cons_zero]
      norm_num)]
  · have hmap := find_matches_singleton [rIB, cEB]
      (fun _ : String => ([1] : List ℚ)) argsortAsc rIB cEB 5 (by omega)
      (by decide) (by decide) (argsortAsc_singleton _)
      (by simp [dot]; norm_num)
    have := congrArg List.length hmap
    simpa using this


/-- A persisted Match Record (the `Match` model of app.py lines 44-56). -/
structure MatchRecord where
  internal_researcher_id : Nat
  external_researcher_id : Nat
  similarity_percentage : ℚ
  match_rank : Nat
deriving DecidableEq, Repr

/-- The progress structure returned by the incremental batch controller
(the fields read by the admin route, app.py lines 529-580). -/
structure BatchProgress where
  processed_this_batch : Nat
  total_matches : Nat
  total_researchers : Nat
  remaining : Nat
  complete : Bool
  next_batch : Nat
deriving DecidableEq, Repr

/-- Modelled from the spec: one step of the batch loop of
`compute_and_store_matches_incremental`, a function imported and called by
app.py (lines 494 and 527) but not present under src/.  Spec §4.6: skip
the profile if it is already `matched` (at least one Match Record exists
for it — `exists_for_source`); otherwise run the single-profile query path
with bulk `top_n = 1`, persist the resulting records (resolving the
candidate id by email as load_data.py lines 70-81 does) and count the
profile as processed. -/
def run_batch_step (db : List Researcher) (encode : String → List ℚ)
    (argsort : List ℚ → List Nat) (acc : List MatchRecord × Nat)
    (p : Researcher) : List MatchRecord × Nat :=
  if acc.1.any (fun rec => decide (rec.internal_researcher_id = p.id)) then acc
  else
    let results := (find_matches db encode argsort p 1).match_list
    let recs := results.map (fun m =>
      { internal_researcher_id := p.id
        external_researcher_id :=
          ((db.find? (fun x => decide (x.email = m.email))).map
            (fun x => x.id)).getD 0
        similarity_percentage := m.similarity_percentage
        match_rank := m.rank })
    (acc.1 ++ recs, acc.2 + 1)

/-- Modelled from the spec: `compute_and_store_matches_incremental`
(`run_batch` in the spec's vocabulary), absent from src/.  Spec §4.6 and
the caller in app.py: select the slice
`[(batch_number-1)*batch_size, batch_number*batch_size)` of source
profiles (internal researchers in creation order), process it with
`run_batch_step`, and report `processed_this_batch`, totals, `remaining`
and `complete` (every source profile matched). -/
def run_batch (db : List Researcher) (stored : List MatchRecord)
    (encode : String → List ℚ) (argsort : List ℚ → List Nat)
    (batch_number batch_size : Nat) : List MatchRecord × BatchProgress :=
  let sources := db.filter (fun c => decide (c.researcher_type = "internal"))
  let slice := (sources.drop ((batch_number - 1) * batch_size)).take batch_size
  let out := slice.foldl (run_batch_step db encode argsort) (stored, 0)
  let matchedCount := (sources.filter (fun p =>
    out.1.any (fun rec => decide (rec.internal_researcher_id = p.id)))).length
  (out.1,
    { processed_this_batch := out.2
      total_matches := matchedCount
      total_researchers := sources.length
      remaining := sources.length - matchedCount
      complete := decide (sources.length - matchedCount = 0)
      next_batch := batch_number + 1 })

/-- C2 (spec-modelled): re-running a batch over a range of source profiles
that all already have Match Records persists no new records and reports
`processed_this_batch = 0` — every already-matched source profile is
skipped, not re-scored. -/
theorem run_batch_idempotent (db : List Researcher)
    (stored : List MatchRecord) (encode : String → List ℚ)
    (argsort : List ℚ → List Nat) (batch_number batch_size : Nat)
    (h : ∀ p ∈ ((db.filter
        (fun c => decide (c.researcher_type = "internal"))).drop
        ((batch_number - 1) * batch_size)).take batch_size,
      stored.any (fun rec => decide (rec.internal_researcher_id = p.id)) = true) :
    (run_batch db stored encode argsort batch_number batch_size).1 = stored ∧
      (run_batch db stored encode argsort batch_number
        batch_size).2.processed_this_batch = 0 := by
  have key : ∀ (sl : List Researcher),
      (∀ p ∈ sl, stored.any
        (fun rec => decide (rec.internal_researcher_id = p.id)) = true) →
      sl.foldl (run_batch_step db encode argsort) (stored, 0) = (stored, 0) := by
    intro sl
    induction sl with
    | nil => intro _; rfl
    | cons p ps ih =>
        intro hall
        rw [List.foldl_cons]
        have hstep : run_batch_step db encode argsort (stored, 0) p =
            (stored, 0) := by
          rw [run_batch_step, if_pos (hall p (by simp))]
        rw [hstep]
        exact ih (fun q hq => hall q (by simp [hq]))
  have hout := key _ h
  constructor
  · simp only [run_batch, hout]
  · simp only [run_batch, hout]

/-- Witness for `run_batch_idempotent`: a database with one internal
researcher that already has a stored Match Record; re-running batch 1
leaves the store unchanged and processes nothing. -/
theorem run_batch_idempotent_witness :
    (run_batch
        [{ id := 1, name := "n", email := "i@x", researcher_type := "internal" }]
        [{ internal_researcher_id := 1, external_researcher_id := 2,
           similarity_percentage := 0, match_rank := 1 }]
        (fun _ : String => ([] : List ℚ)) (fun _ => []) 1 10).1 =
      [{ internal_researcher_id := 1, external_researcher_id := 2,
         similarity_percentage := 0, match_rank := 1 }] ∧
      (run_batch
        [{ id := 1, name := "n", email := "i@x", researcher_type := "internal" }]
        [{ internal_researcher_id := 1, external_researcher_id := 2,
           similarity_percentage := 0, match_rank := 1 }]
        (fun _ : String => ([] : List ℚ)) (fun _ => []) 1 10).2.processed_this_batch = 0 :=
  run_batch_idempotent _ _ _ _ 1 10 (by decide)

end AcademiaMatch
